import Mathlib

/-!
Shallow embedding of `poem-openapi-derive/src/enum.rs`: the semantics of the
code that the `#[derive(Enum)]` macro generates for a unit-variant enum.

The macro itself is a code generator; what we embed is the behaviour of the
generated `Type` / `ParseFromJSON` / `ParseFromParameter` / `ToJSON` /
`ParseFromMultipartField` implementations and the generated remote `From`
conversions, as an interpreter over the enum's structural description
(`EnumArgs`).  Variants of the derived enum are represented by their index in
the declaration-order variant list.

Machine integers are modelled as `Int` with explicit wrapping:
`x as i32` on a wider value is `Int.bmod x (2^32)` (two's-complement wrap into
`[-2^31, 2^31)`), `x as u32` is `x % 2^32`, and similarly at width 64.
-/

namespace PoemEnum

/-- The four integer representations of `enum EnumRepr` (enum.rs lines 26-32). -/
inductive EnumRepr where
  | i32
  | u32
  | i64
  | u64
deriving DecidableEq, Repr

/-- One enum variant as parsed by darling (`struct EnumItem`, enum.rs lines 16-24),
together with its resolved discriminant value (the Rust compiler resolves the
`= expr` discriminants; under String mode the discriminant is unused). -/
structure EnumItem where
  ident : String
  rename : Option String
  disc : Int
deriving DecidableEq, Repr

/-- An external-document link (`ExternalDocument` of common_args, passed through
to the schema unchanged). -/
structure ExternalDocument where
  url : String
  description : Option String
deriving DecidableEq, Repr

/-- The derive input as parsed by darling (`struct EnumArgs`, enum.rs lines 34-56),
restricted to enums that generate successfully (all variants are unit variants).
`rename_all` is the whole-enum rename rule; `rust_repr` is the result of
`detect_rust_repr` on the original input attributes (enum.rs lines 323-347),
i.e. the intrinsic `#[repr(...)]` integer kind when one is declared.
`description` is the doc-comment text extracted by `get_description`. -/
structure EnumArgs where
  ident : String
  variants : List EnumItem
  rename_all : Option (String → String)
  rename : Option String
  deprecated : Bool
  external_docs : Option ExternalDocument
  description : Option String
  repr : Option String
  rust_repr : Option EnumRepr

/-- Source function `parse_oai_enum_repr` (enum.rs lines 313-321). -/
def parse_oai_enum_repr (string : Option String) : Option EnumRepr :=
  match string with
  | some "i32" => some EnumRepr.i32
  | some "i64" => some EnumRepr.i64
  | some "u32" => some EnumRepr.u32
  | some "u64" => some EnumRepr.u64
  | _ => none

/-- Representation resolution (enum.rs line 73): the explicit
`#[oai(repr = ...)]` override wins, else the intrinsic Rust `#[repr(...)]`,
else String mode (`none`). -/
def resolvedRepr (args : EnumArgs) : Option EnumRepr :=
  (parse_oai_enum_repr args.repr).orElse fun _ => args.rust_repr

/-- Source flag `is_numeric` (enum.rs line 74). -/
def is_numeric (args : EnumArgs) : Bool :=
  (resolvedRepr args).isSome

/-- The wire format label `fmt_str` chosen per representation
(enum.rs lines 75-81): unsigned kinds publish the signed-64 label. -/
def fmt_str : EnumRepr → String
  | EnumRepr.i32 => "int32"
  | EnumRepr.i64 => "int64"
  | EnumRepr.u32 => "int64"
  | EnumRepr.u64 => "int64"

/-- The semantics of `x as as_ty` for a wide integer `x`: the cast type `as_ty`
of enum.rs lines 75-81 is `i32`/`u32`/`i64`/`u64`, and Rust `as` narrowing
wraps modulo `2^width` (two's complement for the signed kinds). -/
def wireCast : EnumRepr → Int → Int
  | EnumRepr.i32 => fun x => Int.bmod x (2 ^ 32)
  | EnumRepr.u32 => fun x => x % (2 ^ 32)
  | EnumRepr.i64 => fun x => Int.bmod x (2 ^ 64)
  | EnumRepr.u64 => fun x => x % (2 ^ 64)

/-- Lower bound of the wire type's value range. -/
def wireLo : EnumRepr → Int
  | EnumRepr.i32 => -(2 ^ 31)
  | EnumRepr.u32 => 0
  | EnumRepr.i64 => -(2 ^ 63)
  | EnumRepr.u64 => 0

/-- Upper bound of the wire type's value range. -/
def wireHi : EnumRepr → Int
  | EnumRepr.i32 => 2 ^ 31 - 1
  | EnumRepr.u32 => 2 ^ 32 - 1
  | EnumRepr.i64 => 2 ^ 63 - 1
  | EnumRepr.u64 => 2 ^ 64 - 1

/-- Whether the wire (and parameter-parse) type is signed. -/
def wireSigned : EnumRepr → Bool
  | EnumRepr.i32 => true
  | EnumRepr.i64 => true
  | EnumRepr.u32 => false
  | EnumRepr.u64 => false

/-- A `serde_json` number.  `posInt` holds the `N::PosInt(u64)` case
(non-negative integers, `n < 2^64` for numbers that arise from real JSON),
`negInt` the `N::NegInt(i64)` case (negative integers), and `float` the
`N::Float(f64)` case, whose value is irrelevant here because both integer
accessors return `None` on it. -/
inductive JNumber where
  | posInt (n : Nat)
  | negInt (n : Int)
  | float
deriving DecidableEq, Repr

/-- Model of `serde_json::Value`, with arrays and objects collapsed to payload-free
constructors: the generated code only ever distinguishes `Number`, `String`
and "anything else". -/
inductive JValue where
  | null
  | bool (b : Bool)
  | num (n : JNumber)
  | str (s : String)
  | arr
  | obj
deriving DecidableEq, Repr

/-- Model of `serde_json::Number::as_i64`: defined on negative integers and on
non-negative integers that fit in `i64`; `None` on floats. -/
def as_i64 : JNumber → Option Int
  | JNumber.posInt n => if (n : Int) ≤ 2 ^ 63 - 1 then some (n : Int) else none
  | JNumber.negInt n => some n
  | JNumber.float => none

/-- Model of `serde_json::Number::as_u64`: defined on non-negative integers only. -/
def as_u64 : JNumber → Option Int
  | JNumber.posInt n => some (n : Int)
  | JNumber.negInt _ => none
  | JNumber.float => none

/-- The JSON-number accessor `number_getter` chosen per representation
(enum.rs lines 75-81): the signed 64-bit accessor for signed kinds, the
unsigned 64-bit accessor for unsigned kinds. -/
def number_getter : EnumRepr → JNumber → Option Int
  | EnumRepr.i32 => as_i64
  | EnumRepr.i64 => as_i64
  | EnumRepr.u32 => as_u64
  | EnumRepr.u64 => as_u64

/-- Model of `serde_json::json!` applied to a machine integer `w` (already wrapped into
its wire type's range): non-negative values serialize as `PosInt`, negative
ones as `NegInt`. -/
def jsonOfInt (w : Int) : JNumber :=
  if 0 ≤ w then JNumber.posInt w.toNat else JNumber.negInt w

/-- Modelled from the spec: `apply_rename_rule_variant` lives in
common_args.rs, which is not among the sources; §4.2 says
the whole-enum rename rule is "the whole-enum rename rule applied to the
identifier (case-conversion transform, e.g. to camelCase)", so the rule is
modelled as an opaque string transform applied when present, with the
identifier passed through unchanged when no rule is declared. -/
def apply_rename_rule_variant (rule : Option (String → String)) (name : String) : String :=
  match rule with
  | some f => f name
  | none => name

/-- Canonical (wire-visible) name of a variant, `oai_item_name`
(enum.rs lines 120-122): the per-variant rename if present, else the
whole-enum rename rule applied to the identifier. -/
def oai_item_name (rename_all : Option (String → String)) (v : EnumItem) : String :=
  match v.rename with
  | some s => s
  | none => apply_rename_rule_variant rename_all v.ident

/-- Decode-time parse failures (`ParseError`), identified by how the generated
code constructs them: `expectedType v` is `ParseError::expected_type(value)`
(the WrongType class), `custom msg` is `ParseError::custom(msg)` (the
InvalidValue / InvalidFormat classes), and `expectedInput` is
`ParseError::expected_input()` (the MissingInput class). -/
inductive ParseError where
  | expectedType (v : JValue)
  | custom (msg : String)
  | expectedInput
deriving DecidableEq, Repr

/-- Decidable equality of decode results (the library provides none for
`Except`). -/
instance {ε α : Type} [DecidableEq ε] [DecidableEq α] : DecidableEq (Except ε α) := fun a b =>
  match a, b with
  | Except.ok x, Except.ok y =>
    if h : x = y then isTrue (h ▸ rfl) else isFalse fun hc => h (Except.ok.inj hc)
  | Except.error e, Except.error f =>
    if h : e = f then isTrue (h ▸ rfl) else isFalse fun hc => h (Except.error.inj hc)
  | Except.ok _, Except.error _ => isFalse fun hc => Except.noConfusion hc
  | Except.error _, Except.ok _ => isFalse fun hc => Except.noConfusion hc

/-- The generated sequence of numeric equality checks `eq_checks_num`
(enum.rs lines 135-137, spliced at line 242): one
`if val == (Variant as as_ty) { return Ok(Variant) }` per variant in
declaration order, falling through to
`Err(ParseError::custom("invalid enum value"))` (enum.rs line 243).
`k` is the index of the first variant of `l` in the full declaration list. -/
def eq_checks_num (r : EnumRepr) (val : Int) : List EnumItem → Nat → Except ParseError Nat
  | [], _ => Except.error (ParseError.custom "invalid enum value")
  | v :: rest, k =>
    if wireCast r v.disc = val then Except.ok k else eq_checks_num r val rest (k + 1)

/-- The generated string match arms `item_to_ident` (enum.rs lines 127-128,
spliced at lines 253 and 275): one `"canonical-name" => Ok(Variant)` arm per
variant in declaration order; a Rust `match` takes the first arm whose literal
pattern equals the scrutinee. `none` is the fall-through `_` arm. -/
def item_to_ident (rename_all : Option (String → String)) (item : String) :
    List EnumItem → Nat → Option Nat
  | [], _ => none
  | v :: rest, k =>
    if oai_item_name rename_all v = item then some k
    else item_to_ident rename_all item rest (k + 1)

/-- Generated `ParseFromJSON::parse_from_json` (enum.rs lines 234-260).  Under numeric
mode the accessor's value `raw` is narrowed by `(raw as parse_ty) as as_ty`;
`parse_ty` and `as_ty` coincide for every representation (enum.rs lines
75-81), so the narrowing is a single wrapping cast to the wire type. -/
def parse_from_json (args : EnumArgs) (value : Option JValue) : Except ParseError Nat :=
  let value := value.getD JValue.null
  match resolvedRepr args with
  | some r =>
    match value with
    | JValue.num n =>
      match number_getter r n with
      | some raw => eq_checks_num r (wireCast r raw) args.variants 0
      | none => Except.error (ParseError.expectedType value)
    | _ => Except.error (ParseError.expectedType value)
  | none =>
    match value with
    | JValue.str item =>
      match item_to_ident args.rename_all item args.variants 0 with
      | some k => Except.ok k
      | none => Except.error (ParseError.expectedType value)
    | _ => Except.error (ParseError.expectedType value)

/-- One decimal digit's value, `none` on a non-digit character. -/
def digitVal (c : Char) : Option Nat :=
  if '0' ≤ c ∧ c ≤ '9' then some (c.toNat - 48) else none

/-- Accumulate decimal digits left to right, failing on the first non-digit. -/
def parseDigitsAux : List Char → Nat → Option Nat
  | [], acc => some acc
  | c :: cs, acc =>
    match digitVal c with
    | some d => parseDigitsAux cs (acc * 10 + d)
    | none => none

/-- Parse a non-empty all-digit string to its value. -/
def parseDigits : List Char → Option Nat
  | [] => none
  | cs => parseDigitsAux cs 0

/-- Rust's `str::parse` for a bounded integer type with range `[lo, hi]`
(`from_str_radix`, radix 10): an optional leading `+` (any type) or `-`
(signed types only; unsigned types reject `-` outright), then one or more
decimal digits, with the accumulated value range-checked — checking the final
value against the bound is equivalent to Rust's per-step overflow checks
because the accumulator grows monotonically. -/
def rust_str_parse (signed : Bool) (lo hi : Int) (s : String) : Option Int :=
  match s.data with
  | [] => none
  | c :: rest =>
    if c = '+' then
      (parseDigits rest).bind fun n => if (n : Int) ≤ hi then some (n : Int) else none
    else if c = '-' then
      if signed then
        (parseDigits rest).bind fun n => if lo ≤ -(n : Int) then some (-(n : Int)) else none
      else none
    else
      (parseDigits (c :: rest)).bind fun n => if (n : Int) ≤ hi then some (n : Int) else none

/-- Rust `value.parse::<parse_ty>()` for the representation's parameter-parsing
type `parse_ty` (enum.rs lines 75-81): the exact-width bounded string parse. -/
def parse_ty_str (r : EnumRepr) (s : String) : Option Int :=
  rust_str_parse (wireSigned r) (wireLo r) (wireHi r) s

/-- Generated `ParseFromParameter::parse_from_parameter` (enum.rs lines 262-280).
Under numeric mode, `let raw: as_ty = parsed as as_ty` is a same-type cast
(`parse_ty` = `as_ty`), so `raw` is the parsed value itself, fed to the same
equality-check sequence as JSON decode (`eq_checks_param_num` at enum.rs lines
138-140 compares exactly as `eq_checks_num` does). -/
def parse_from_parameter (args : EnumArgs) (value : String) : Except ParseError Nat :=
  match resolvedRepr args with
  | some r =>
    match parse_ty_str r value with
    | some parsed => eq_checks_num r parsed args.variants 0
    | none => Except.error (ParseError.custom "invalid integer")
  | none =>
    match item_to_ident args.rename_all value args.variants 0 with
    | some k => Except.ok k
    | none => Except.error (ParseError.custom "Expect a valid enumeration value.")

/-- Generated `ToJSON::to_json` (enum.rs lines 282-292), on the variant with declaration
index `i`.  The Rust receiver `&self` is always one of the declared variants;
an out-of-range index has no counterpart and yields `none` here, so "declared
variant" is the hypothesis `i < args.variants.length`. -/
def to_json (args : EnumArgs) (i : Nat) : Option JValue :=
  match args.variants[i]? with
  | none => none
  | some v =>
    match resolvedRepr args with
    | some r => some (JValue.num (jsonOfInt (wireCast r v.disc)))
    | none => some (JValue.str (oai_item_name args.rename_all v))

/-- The registry's schema record (`MetaSchema`), restricted to the fields the
generated `register` writes.  `minimum`/`maximum` are `f64` in the source;
the only values ever written are the exact constants `0.0` and `4294967295.0`,
so they are carried as integers. -/
structure MetaSchema where
  ty : String
  format : Option String
  enum_items : List JValue
  minimum : Option Int
  maximum : Option Int
  description : Option String
  external_docs : Option ExternalDocument
  deprecated : Bool
deriving Repr

/-- Constructor `MetaSchema::new(ty)`: everything but the wire type at its default. -/
def MetaSchema.new (ty : String) : MetaSchema :=
  ⟨ty, none, [], none, none, none, none, false⟩

/-- Source statement `min_setter_stmt` (enum.rs lines 83-88): `s.minimum = Some(0.0)` for the
unsigned kinds, a no-op otherwise. -/
def min_setter_stmt (repr : Option EnumRepr) (s : MetaSchema) : MetaSchema :=
  match repr with
  | some EnumRepr.u32 => { s with minimum := some 0 }
  | some EnumRepr.u64 => { s with minimum := some 0 }
  | _ => s

/-- Source statement `max_setter_stmt` (enum.rs lines 89-92): `s.maximum = Some(4294967295.0)`
for unsigned-32, a no-op otherwise (omitted for i32/i64/u64). -/
def max_setter_stmt (repr : Option EnumRepr) (s : MetaSchema) : MetaSchema :=
  match repr with
  | some EnumRepr.u32 => { s with maximum := some 4294967295 }
  | _ => s

/-- The numeric-mode `enum_items_num` list (enum.rs lines 131-132):
`json!(Variant as as_ty)` per variant in declaration order. -/
def enum_items_num (r : EnumRepr) (variants : List EnumItem) : List JValue :=
  variants.map fun v => JValue.num (jsonOfInt (wireCast r v.disc))

/-- The string-mode `enum_items` list (enum.rs line 125):
`ToJSON::to_json(&Variant).unwrap()` per variant in declaration order, i.e.
each variant's canonical name as a JSON string. -/
def enum_items_str (rename_all : Option (String → String)) (variants : List EnumItem) :
    List JValue :=
  variants.map fun v => JValue.str (oai_item_name rename_all v)

/-- The schema built by the generated `Type::register` (enum.rs lines 207-227):
the descriptor handed to `registry.create_schema` under the enum's canonical
type name. -/
def register_schema (args : EnumArgs) : MetaSchema :=
  let s :=
    if is_numeric args then
      let s := MetaSchema.new "integer"
      let r := (resolvedRepr args).getD EnumRepr.i32
      let s := { s with format := some (fmt_str r) }
      let s := { s with enum_items := enum_items_num r args.variants }
      let s := min_setter_stmt (resolvedRepr args) s
      let s := max_setter_stmt (resolvedRepr args) s
      s
    else
      let s := MetaSchema.new "string"
      { s with enum_items := enum_items_str args.rename_all args.variants }
  { s with
    description := args.description
    external_docs := args.external_docs
    deprecated := args.deprecated }

/-- The canonical type name the schema is registered under
(`oai_typename`, enum.rs line 64): the whole-enum rename if present, else the
raw type identifier. -/
def oai_typename (args : EnumArgs) : String :=
  args.rename.getD args.ident

/-- The generated local→external match arms of `remote_conversion`
(enum.rs lines 144-149): `Local::Ident => Remote::Ident` per local variant in
declaration order.  Variants of either enum are identified by their shared
identifiers; arms are (pattern, result) pairs. -/
def local_to_remote_items (variants : List EnumItem) : List (String × String) :=
  variants.map fun v => (v.ident, v.ident)

/-- The generated external→local match arms of `remote_conversion`
(enum.rs lines 150-155): `Remote::Ident => Local::Ident`, again one arm per
local variant. -/
def remote_to_local_items (variants : List EnumItem) : List (String × String) :=
  variants.map fun v => (v.ident, v.ident)

/-- Evaluating a generated `match` over identifier arms: the first arm whose
pattern equals the scrutinee fires.  `none` means no arm covers the value —
which the Rust compiler rejects at generation time (non-exhaustive match), so
a successful build guarantees totality. -/
def match_arms (arms : List (String × String)) (x : String) : Option String :=
  match arms with
  | [] => none
  | (pat, res) :: rest => if pat = x then some res else match_arms rest x

/-- The generated `From<Local> for Remote` conversion (enum.rs lines 158-164). -/
def local_to_remote (variants : List EnumItem) (x : String) : Option String :=
  match_arms (local_to_remote_items variants) x

/-- The generated `From<Remote> for Local` conversion (enum.rs lines 166-172). -/
def remote_to_local (variants : List EnumItem) (x : String) : Option String :=
  match_arms (remote_to_local_items variants) x

/-- Generated `ParseFromMultipartField::parse_from_multipart` (enum.rs lines 294-305),
with the field's delivered text payload standing for the awaited
`field.text()` read: a present field's payload is handed to
`parse_from_parameter`, an absent field is `ParseError::expected_input()`. -/
def parse_from_multipart (args : EnumArgs) (field : Option String) : Except ParseError Nat :=
  match field with
  | some s => parse_from_parameter args s
  | none => Except.error ParseError.expectedInput

/-- Decimal digit character for a value below ten. -/
def digitChar : Nat → Char
  | 0 => '0'
  | 1 => '1'
  | 2 => '2'
  | 3 => '3'
  | 4 => '4'
  | 5 => '5'
  | 6 => '6'
  | 7 => '7'
  | 8 => '8'
  | _ => '9'

/-- Decimal rendering of a natural number, most significant digit first
(the digit sequence Rust's `Display` produces). -/
def natDecimal (n : Nat) : List Char :=
  if _h : n < 10 then [digitChar n]
  else natDecimal (n / 10) ++ [digitChar (n % 10)]
decreasing_by omega

/-- Decimal rendering of a machine integer, as Rust's `to_string` produces it
(a leading minus sign for negatives). -/
def intDecimal (w : Int) : String :=
  if w < 0 then String.mk ('-' :: natDecimal (-w).toNat) else String.mk (natDecimal w.toNat)

/-- The textual form a JSON scalar takes when sent as a string-valued request
parameter: a JSON string contributes its contents, a JSON number its decimal
rendering.  Only these two shapes arise as enum encodings. -/
def jvalueParamString : JValue → String
  | JValue.str s => s
  | JValue.num (JNumber.posInt n) => String.mk (natDecimal n)
  | JValue.num (JNumber.negInt n) => String.mk ('-' :: natDecimal (-n).toNat)
  | _ => ""

/-- The Integer-mode data-model invariant of spec §3: discriminants are
pairwise distinct as seen through the wire cast (Rust guarantees distinct
discriminants in the enum's native representation; the generated code relies
on them staying distinct after the cast to the wire type). -/
abbrev discsDistinct (r : EnumRepr) (l : List EnumItem) : Prop :=
  List.Pairwise (fun a b => wireCast r a.disc ≠ wireCast r b.disc) l

/-- The String-mode data-model invariant of spec §3: canonical names are
pairwise distinct across the enum's variants. -/
abbrev namesDistinct (rename_all : Option (String → String)) (l : List EnumItem) : Prop :=
  List.Pairwise (fun a b => oai_item_name rename_all a ≠ oai_item_name rename_all b) l

/-- The two-variant example enum of the spec and tests (`MyEnum` with
`CreateUser`, `DeleteUser`), String mode, no renames. -/
def exStrArgs : EnumArgs :=
  ⟨"MyEnum", [⟨"CreateUser", none, 0⟩, ⟨"DeleteUser", none, 1⟩],
    none, none, false, none, none, none, none⟩

/-- The per-variant rename example of the spec and tests: `DeleteUser` is
renamed to `"delete_user"`, `CreateUser` keeps its identifier. -/
def exRenameArgs : EnumArgs :=
  ⟨"MyEnum", [⟨"CreateUser", none, 0⟩, ⟨"DeleteUser", some "delete_user", 1⟩],
    none, none, false, none, none, none, none⟩

/-- The unsigned-32 example enum of the tests (`U32Enum` with discriminants
0, 1, 2 and the explicit `#[oai(repr = "u32")]` override). -/
def exU32Args : EnumArgs :=
  ⟨"U32Enum", [⟨"Zero", none, 0⟩, ⟨"One", none, 1⟩, ⟨"Two", none, 2⟩],
    none, none, false, none, none, some "u32", none⟩

/-- The signed-32 example enum of the tests (`Int32Enum` with discriminants
0, 1, 2 and an intrinsic `#[repr(i32)]`). -/
def exI32Args : EnumArgs :=
  ⟨"Int32Enum", [⟨"Zero", none, 0⟩, ⟨"One", none, 1⟩, ⟨"Two", none, 2⟩],
    none, none, false, none, none, none, some EnumRepr.i32⟩

/-- A one-variant unsigned-64 enum, used to exhibit the accessor-failure
error class on negative JSON numbers. -/
def exU64Args : EnumArgs :=
  ⟨"U64Enum", [⟨"Zero", none, 0⟩], none, none, false, none, none, some "u64", none⟩

/-- The three shared variants of the remote-bridge test (`A`, `B`, `C`). -/
def exRemoteVariants : List EnumItem :=
  [⟨"A", none, 0⟩, ⟨"B", none, 1⟩, ⟨"C", none, 2⟩]

/-! ### Arithmetic facts about the wire casts -/

theorem wireCast_idem (r : EnumRepr) (x : Int) : wireCast r (wireCast r x) = wireCast r x := by
  cases r <;> simp [wireCast]

theorem wireCast_range (r : EnumRepr) (x : Int) :
    wireLo r ≤ wireCast r x ∧ wireCast r x ≤ wireHi r := by
  cases r
  case i32 =>
    have h1 := @Int.le_bmod x (2 ^ 32) (by norm_num)
    have h2 := @Int.bmod_lt x (2 ^ 32) (by norm_num)
    simp only [wireCast, wireLo, wireHi]
    norm_num at h1 h2 ⊢
    omega
  case i64 =>
    have h1 := @Int.le_bmod x (2 ^ 64) (by norm_num)
    have h2 := @Int.bmod_lt x (2 ^ 64) (by norm_num)
    simp only [wireCast, wireLo, wireHi]
    norm_num at h1 h2 ⊢
    omega
  case u32 =>
    have h1 := Int.emod_nonneg x (show (2 ^ 32 : Int) ≠ 0 by norm_num)
    have h2 := Int.emod_lt_of_pos x (show (0 : Int) < 2 ^ 32 by norm_num)
    simp only [wireCast, wireLo, wireHi]
    omega
  case u64 =>
    have h1 := Int.emod_nonneg x (show (2 ^ 64 : Int) ≠ 0 by norm_num)
    have h2 := Int.emod_lt_of_pos x (show (0 : Int) < 2 ^ 64 by norm_num)
    simp only [wireCast, wireLo, wireHi]
    omega

theorem wireCast_eq_self (r : EnumRepr) {x : Int}
    (hlo : wireLo r ≤ x) (hhi : x ≤ wireHi r) : wireCast r x = x := by
  cases r <;> simp only [wireCast, wireLo, wireHi] at * <;>
    first
    | omega
    | (rw [Int.bmod_def]; split <;> omega)

theorem wireCast32_congr (r : EnumRepr) (h32 : r = EnumRepr.i32 ∨ r = EnumRepr.u32)
    {x y : Int} (h : x % 2 ^ 32 = y % 2 ^ 32) : wireCast r x = wireCast r y := by
  have hcast : ((2 ^ 32 : Nat) : Int) = 2 ^ 32 := by norm_num
  rcases h32 with rfl | rfl
  · simp only [wireCast]
    rw [← Int.emod_bmod_congr x, ← Int.emod_bmod_congr y, hcast, h]
  · simpa [wireCast] using h

/-! ### The accessors recover the value that `json!` serialized -/

theorem as_i64_jsonOfInt {w : Int} (h : w ≤ 2 ^ 63 - 1) : as_i64 (jsonOfInt w) = some w := by
  by_cases h0 : 0 ≤ w
  · have ht : ((w.toNat : Nat) : Int) = w := Int.toNat_of_nonneg h0
    simp only [jsonOfInt, if_pos h0, as_i64, ht]
    rw [if_pos h]
  · simp [jsonOfInt, h0, as_i64]

theorem as_u64_jsonOfInt {w : Int} (h : 0 ≤ w) : as_u64 (jsonOfInt w) = some w := by
  simp [jsonOfInt, h, as_u64, Int.toNat_of_nonneg h]

theorem number_getter_jsonOfInt (r : EnumRepr) (x : Int) :
    number_getter r (jsonOfInt (wireCast r x)) = some (wireCast r x) := by
  have hr := wireCast_range r x
  cases r
  case i32 =>
    exact as_i64_jsonOfInt (by simp only [wireHi] at hr; omega)
  case i64 =>
    exact as_i64_jsonOfInt (by simp only [wireHi] at hr; omega)
  case u32 =>
    exact as_u64_jsonOfInt (by simp only [wireLo] at hr; omega)
  case u64 =>
    exact as_u64_jsonOfInt (by simp only [wireLo] at hr; omega)

/-! ### First-match semantics of the generated check sequences -/

theorem eq_checks_num_ok (r : EnumRepr) (val : Int) (l : List EnumItem) :
    ∀ (k i : Nat) (v : EnumItem),
      l[i]? = some v → wireCast r v.disc = val →
      (∀ j w, j < i → l[j]? = some w → wireCast r w.disc ≠ val) →
      eq_checks_num r val l k = Except.ok (k + i) := by
  induction l with
  | nil => intro k i v hv _ _; simp at hv
  | cons u rest ih =>
    intro k i v hv hval hfirst
    cases i with
    | zero =>
      rw [List.getElem?_cons_zero, Option.some_inj] at hv
      subst hv
      simp [eq_checks_num, hval]
    | succ i =>
      have h0 : wireCast r u.disc ≠ val :=
        hfirst 0 u (Nat.succ_pos i) List.getElem?_cons_zero
      have ihr := ih (k + 1) i v (by simpa using hv) hval
        (fun j w hj hw => hfirst (j + 1) w (by omega) (by simpa using hw))
      rw [eq_checks_num, if_neg h0, ihr]
      congr 1
      omega

theorem eq_checks_num_err (r : EnumRepr) (val : Int) (l : List EnumItem)
    (h : ∀ v ∈ l, wireCast r v.disc ≠ val) :
    ∀ k, eq_checks_num r val l k = Except.error (ParseError.custom "invalid enum value") := by
  induction l with
  | nil => intro _; rfl
  | cons u rest ih =>
    intro k
    have hu : wireCast r u.disc ≠ val := h u (List.mem_cons_self u rest)
    rw [eq_checks_num, if_neg hu]
    exact ih (fun v hv => h v (List.mem_cons_of_mem u hv)) (k + 1)

theorem item_to_ident_ok (ra : Option (String → String)) (item : String) (l : List EnumItem) :
    ∀ (k i : Nat) (v : EnumItem),
      l[i]? = some v → oai_item_name ra v = item →
      (∀ j w, j < i → l[j]? = some w → oai_item_name ra w ≠ item) →
      item_to_ident ra item l k = some (k + i) := by
  induction l with
  | nil => intro k i v hv _ _; simp at hv
  | cons u rest ih =>
    intro k i v hv hval hfirst
    cases i with
    | zero =>
      rw [List.getElem?_cons_zero, Option.some_inj] at hv
      subst hv
      simp [item_to_ident, hval]
    | succ i =>
      have h0 : oai_item_name ra u ≠ item :=
        hfirst 0 u (Nat.succ_pos i) List.getElem?_cons_zero
      have ihr := ih (k + 1) i v (by simpa using hv) hval
        (fun j w hj hw => hfirst (j + 1) w (by omega) (by simpa using hw))
      rw [item_to_ident, if_neg h0, ihr]
      congr 1
      omega

theorem item_to_ident_none (ra : Option (String → String)) (item : String) (l : List EnumItem)
    (h : ∀ v ∈ l, oai_item_name ra v ≠ item) :
    ∀ k, item_to_ident ra item l k = none := by
  induction l with
  | nil => intro _; rfl
  | cons u rest ih =>
    intro k
    have hu : oai_item_name ra u ≠ item := h u (List.mem_cons_self u rest)
    rw [item_to_ident, if_neg hu]
    exact ih (fun v hv => h v (List.mem_cons_of_mem u hv)) (k + 1)

/-- From the pairwise-distinct invariant, a variant key never occurs at two
positions: any strictly earlier entry has a different key. -/
theorem pairwise_ne_first {α β : Type} (f : α → β) {l : List α}
    (hp : List.Pairwise (fun a b => f a ≠ f b) l) {i j : Nat} {v w : α}
    (hj : j < i) (hvi : l[i]? = some v) (hwj : l[j]? = some w) : f w ≠ f v := by
  rw [List.getElem?_eq_some_iff] at hvi hwj
  obtain ⟨hi', hvi⟩ := hvi
  obtain ⟨hj', hwj⟩ := hwj
  have := (List.pairwise_iff_getElem.mp hp) j i hj' hi' hj
  rw [hvi, hwj] at this
  exact this

/-! ### Decimal rendering parses back to the value that was printed -/

theorem digitVal_digitChar {n : Nat} (h : n < 10) : digitVal (digitChar n) = some n := by
  interval_cases n <;> decide

theorem digitChar_ne_plus (n : Nat) : digitChar n ≠ '+' := by
  unfold digitChar
  split <;> decide

theorem digitChar_ne_minus (n : Nat) : digitChar n ≠ '-' := by
  unfold digitChar
  split <;> decide

theorem parseDigitsAux_append (xs ys : List Char) :
    ∀ acc, parseDigitsAux (xs ++ ys) acc =
      (parseDigitsAux xs acc).bind fun m => parseDigitsAux ys m := by
  induction xs with
  | nil => intro acc; rfl
  | cons c cs ih =>
    intro acc
    rw [List.cons_append, parseDigitsAux, parseDigitsAux]
    cases hdv : digitVal c with
    | some d => exact ih (acc * 10 + d)
    | none => rfl

theorem parseDigitsAux_natDecimal (n : Nat) :
    ∀ acc, parseDigitsAux (natDecimal n) acc =
      some (acc * 10 ^ (natDecimal n).length + n) := by
  induction n using Nat.strong_induction_on with
  | _ n ih =>
    intro acc
    by_cases h : n < 10
    · rw [natDecimal, dif_pos h]
      simp [parseDigitsAux, digitVal_digitChar h]
    · rw [natDecimal, dif_neg h, parseDigitsAux_append]
      rw [ih (n / 10) (by omega) acc]
      have hm : n % 10 < 10 := by omega
      simp only [Option.some_bind, parseDigitsAux, digitVal_digitChar hm,
        List.length_append, List.length_singleton, pow_succ, ← mul_assoc]
      generalize acc * 10 ^ (natDecimal (n / 10)).length = X
      congr 1
      omega

theorem natDecimal_head (n : Nat) : ∃ m cs, m < 10 ∧ natDecimal n = digitChar m :: cs := by
  induction n using Nat.strong_induction_on with
  | _ n ih =>
    by_cases h : n < 10
    · exact ⟨n, [], h, by rw [natDecimal, dif_pos h]⟩
    · obtain ⟨m, cs, hm, hed⟩ := ih (n / 10) (by omega)
      exact ⟨m, cs ++ [digitChar (n % 10)], hm, by rw [natDecimal, dif_neg h, hed]; rfl⟩

theorem parseDigits_natDecimal (n : Nat) : parseDigits (natDecimal n) = some n := by
  obtain ⟨m, cs, _hm, hed⟩ := natDecimal_head n
  have h := parseDigitsAux_natDecimal n 0
  rw [hed] at h ⊢
  simpa [parseDigits] using h

/-- Definitional unfolding of `rust_str_parse` on a non-empty character
list. -/
theorem rust_str_parse_cons (signed : Bool) (lo hi : Int) (c : Char) (rest : List Char) :
    rust_str_parse signed lo hi (String.mk (c :: rest)) =
      if c = '+' then
        (parseDigits rest).bind fun n => if (n : Int) ≤ hi then some (n : Int) else none
      else if c = '-' then
        if signed = true then
          (parseDigits rest).bind fun n =>
            if lo ≤ -(n : Int) then some (-(n : Int)) else none
        else none
      else
        (parseDigits (c :: rest)).bind fun n =>
          if (n : Int) ≤ hi then some (n : Int) else none := rfl

theorem rust_str_parse_intDecimal (signed : Bool) (lo hi : Int)
    (hunsigned : signed = false → lo = 0) (hlo : lo ≤ 0) (hhi : 0 ≤ hi) (w : Int) :
    rust_str_parse signed lo hi (intDecimal w) =
      if lo ≤ w ∧ w ≤ hi then some w else none := by
  by_cases h0 : w < 0
  · rw [intDecimal, if_pos h0, rust_str_parse_cons]
    rw [if_neg (by decide : ¬('-' = '+')), if_pos rfl]
    cases signed with
    | false =>
      have hlo0 := hunsigned rfl
      rw [if_neg (by decide : ¬(false = true)), if_neg (by omega)]
    | true =>
      rw [if_pos rfl, parseDigits_natDecimal, Option.some_bind]
      have ht : (((-w).toNat : Nat) : Int) = -w := Int.toNat_of_nonneg (by omega)
      rw [ht]
      by_cases hw : lo ≤ w
      · rw [if_pos (by omega), if_pos (by constructor <;> omega), neg_neg]
      · rw [if_neg (by omega), if_neg (by intro hc; exact hw hc.1)]
  · obtain ⟨m, cs, _hm, hed⟩ := natDecimal_head w.toNat
    rw [intDecimal, if_neg h0, hed, rust_str_parse_cons]
    rw [if_neg (digitChar_ne_plus m), if_neg (digitChar_ne_minus m)]
    have hp : parseDigits (digitChar m :: cs) = some w.toNat := by
      rw [← hed]
      exact parseDigits_natDecimal w.toNat
    rw [hp, Option.some_bind]
    have ht : ((w.toNat : Nat) : Int) = w := Int.toNat_of_nonneg (by omega)
    rw [ht]
    by_cases hw : w ≤ hi
    · rw [if_pos hw, if_pos (by constructor <;> omega)]
    · rw [if_neg hw, if_neg (by intro hc; exact hw hc.2)]

theorem parse_ty_str_intDecimal (r : EnumRepr) (w : Int) :
    parse_ty_str r (intDecimal w) =
      if wireLo r ≤ w ∧ w ≤ wireHi r then some w else none := by
  cases r
  case i32 =>
    exact rust_str_parse_intDecimal true _ _
      (fun h => absurd h (by decide)) (by norm_num [wireLo]) (by norm_num [wireHi]) w
  case i64 =>
    exact rust_str_parse_intDecimal true _ _
      (fun h => absurd h (by decide)) (by norm_num [wireLo]) (by norm_num [wireHi]) w
  case u32 =>
    exact rust_str_parse_intDecimal false _ _
      (fun _ => rfl) (by norm_num [wireLo]) (by norm_num [wireHi]) w
  case u64 =>
    exact rust_str_parse_intDecimal false _ _
      (fun _ => rfl) (by norm_num [wireLo]) (by norm_num [wireHi]) w

/-- The parameter string form of a numeric encoding is its decimal
rendering. -/
theorem jvalueParamString_num (w : Int) :
    jvalueParamString (JValue.num (jsonOfInt w)) = intDecimal w := by
  by_cases h0 : 0 ≤ w
  · rw [jsonOfInt, if_pos h0, jvalueParamString, intDecimal, if_neg (by omega)]
  · rw [jsonOfInt, if_neg h0, jvalueParamString, intDecimal, if_pos (by omega)]

/-- Matching an identifier against the identity arms generated for the remote
bridge returns the identifier itself whenever it names a variant. -/
theorem match_arms_ident (l : List EnumItem) (x : String)
    (hx : x ∈ l.map EnumItem.ident) :
    match_arms (l.map fun v => (v.ident, v.ident)) x = some x := by
  induction l with
  | nil => simp at hx
  | cons u rest ih =>
    simp only [List.map_cons, match_arms]
    by_cases hu : u.ident = x
    · rw [if_pos hu, hu]
    · rw [if_neg hu]
      refine ih ?_
      rcases List.mem_cons.mp hx with h | h
      · exact absurd h.symm hu
      · exact h

/-! ### The claims -/

/-- C1: for every declared variant, in both String and Integer wire modes,
decoding the encoding returns the variant: `parse_from_json` inverts
`to_json`, and `parse_from_parameter` applied to the string form of the
encoded scalar also returns the variant.  The hypothesis is the data-model
invariant of spec §3: wire keys (canonical names under String mode,
wire-cast discriminants under Integer mode) are pairwise distinct. -/
theorem spec_c1_roundtrip (args : EnumArgs) (i : Nat) (v : EnumItem)
    (hv : args.variants[i]? = some v)
    (hkeys : match resolvedRepr args with
      | some r => discsDistinct r args.variants
      | none => namesDistinct args.rename_all args.variants) :
    ∃ j, to_json args i = some j ∧
      parse_from_json args (some j) = Except.ok i ∧
      parse_from_parameter args (jvalueParamString j) = Except.ok i := by
  cases hr : resolvedRepr args with
  | some r =>
    rw [hr] at hkeys
    have hfirst : ∀ j w, j < i → args.variants[j]? = some w →
        wireCast r w.disc ≠ wireCast r v.disc :=
      fun j w hj hw => pairwise_ne_first (fun a => wireCast r a.disc) hkeys hj hv hw
    have hscan := eq_checks_num_ok r (wireCast r v.disc) args.variants 0 i v hv rfl hfirst
    refine ⟨JValue.num (jsonOfInt (wireCast r v.disc)), ?_, ?_, ?_⟩
    · simp [to_json, hv, hr]
    · simp only [parse_from_json, Option.getD_some, hr, number_getter_jsonOfInt,
        wireCast_idem]
      simpa using hscan
    · rw [jvalueParamString_num]
      simp only [parse_from_parameter, hr]
      rw [parse_ty_str_intDecimal,
        if_pos ⟨(wireCast_range r v.disc).1, (wireCast_range r v.disc).2⟩]
      simpa using hscan
  | none =>
    rw [hr] at hkeys
    have hfirst : ∀ j w, j < i → args.variants[j]? = some w →
        oai_item_name args.rename_all w ≠ oai_item_name args.rename_all v :=
      fun j w hj hw => pairwise_ne_first (oai_item_name args.rename_all) hkeys hj hv hw
    have hmatch := item_to_ident_ok args.rename_all (oai_item_name args.rename_all v)
      args.variants 0 i v hv rfl hfirst
    refine ⟨JValue.str (oai_item_name args.rename_all v), ?_, ?_, ?_⟩
    · simp [to_json, hv, hr]
    · simp [parse_from_json, hr, hmatch]
    · simp [jvalueParamString, parse_from_parameter, hr, hmatch]

/-- Witness for C1 at the two-variant string-mode enum, variant index 1
(`DeleteUser`). -/
theorem spec_c1_roundtrip_witness :
    ∃ j, to_json exStrArgs 1 = some j ∧
      parse_from_json exStrArgs (some j) = Except.ok 1 ∧
      parse_from_parameter exStrArgs (jvalueParamString j) = Except.ok 1 :=
  spec_c1_roundtrip exStrArgs 1 ⟨"DeleteUser", none, 1⟩ (by decide)
    (by decide : namesDistinct exStrArgs.rename_all exStrArgs.variants)

/-- C2 (amended): under Integer wire mode, JSON decode requires a JSON
number, extracts it with the resolver's accessor, narrows it to the wire
type, and scans the variants in declaration order, returning the first
variant whose wire-cast discriminant equals the narrowed value; a number
whose extraction succeeds but matches no discriminant fails with
InvalidValue; a number the accessor rejects (a float, a negative number
under an unsigned mode, or an integer beyond the signed accessor's range)
fails with WrongType, as does every non-number JSON value. -/
theorem spec_c2_numeric_json_decode (args : EnumArgs) (r : EnumRepr)
    (hr : resolvedRepr args = some r) :
    (∀ n raw i v, number_getter r n = some raw →
        args.variants[i]? = some v → wireCast r v.disc = wireCast r raw →
        (∀ j w, j < i → args.variants[j]? = some w →
          wireCast r w.disc ≠ wireCast r raw) →
        parse_from_json args (some (JValue.num n)) = Except.ok i) ∧
    (∀ n raw, number_getter r n = some raw →
        (∀ v ∈ args.variants, wireCast r v.disc ≠ wireCast r raw) →
        parse_from_json args (some (JValue.num n)) =
          Except.error (ParseError.custom "invalid enum value")) ∧
    (∀ n, number_getter r n = none →
        parse_from_json args (some (JValue.num n)) =
          Except.error (ParseError.expectedType (JValue.num n))) ∧
    (∀ value, (∀ n, value ≠ JValue.num n) →
        parse_from_json args (some value) =
          Except.error (ParseError.expectedType value)) := by
  refine ⟨?_, ?_, ?_, ?_⟩
  · intro n raw i v hget hv hval hfirst
    simp only [parse_from_json, Option.getD_some, hr, hget]
    simpa using eq_checks_num_ok r (wireCast r raw) args.variants 0 i v hv hval hfirst
  · intro n raw hget hnone
    simp only [parse_from_json, Option.getD_some, hr, hget]
    exact eq_checks_num_err r (wireCast r raw) args.variants hnone 0
  · intro n hget
    simp [parse_from_json, hr, hget]
  · intro value hnn
    cases value <;> first
      | exact absurd rfl (hnn _)
      | simp [parse_from_json, hr]

/-- Witness for C2's amended statement at the unsigned-32 test enum. -/
theorem spec_c2_numeric_json_decode_witness :
    parse_from_json exU32Args (some (JValue.num (JNumber.posInt 7))) =
      Except.error (ParseError.custom "invalid enum value") :=
  (spec_c2_numeric_json_decode exU32Args EnumRepr.u32 (by decide)).2.1
    (JNumber.posInt 7) 7 (by decide) (by decide)

/-- C2 counterexample: under Integer mode (unsigned-64), the JSON number `-1`
matches no discriminant (the only discriminant is `0`), yet JSON decode fails
with the WrongType error (`expected_type`), not the InvalidValue error
(`custom "invalid enum value"`) the claim requires for every non-matching
JSON number: the unsigned accessor rejects the negative number before the
discriminant scan is reached. -/
theorem spec_c2_counterexample :
    parse_from_json exU64Args (some (JValue.num (JNumber.negInt (-1)))) =
      Except.error (ParseError.expectedType (JValue.num (JNumber.negInt (-1)))) ∧
    parse_from_json exU64Args (some (JValue.num (JNumber.negInt (-1)))) ≠
      Except.error (ParseError.custom "invalid enum value") := by
  decide

/-- C3: the schema's enumValues sequence preserves declaration order exactly:
under String mode it is the canonical names as JSON strings in declaration
order, under Integer mode the discriminants cast to the wire type as JSON
numbers in declaration order; in particular the `CreateUser, DeleteUser`
example yields exactly those two strings in order. -/
theorem spec_c3_enum_values_order (args : EnumArgs) :
    ((register_schema args).enum_items =
      match resolvedRepr args with
      | some r => args.variants.map fun v => JValue.num (jsonOfInt (wireCast r v.disc))
      | none => args.variants.map fun v => JValue.str (oai_item_name args.rename_all v)) ∧
    (register_schema exStrArgs).enum_items =
      [JValue.str "CreateUser", JValue.str "DeleteUser"] := by
  constructor
  · cases hr : resolvedRepr args with
    | some r =>
      cases r <;>
        simp [register_schema, is_numeric, hr, enum_items_num, min_setter_stmt,
          max_setter_stmt, MetaSchema.new]
    | none =>
      simp [register_schema, is_numeric, hr, enum_items_str, MetaSchema.new]
  · rfl

/-- C4: the schema bounds per integer kind: unsigned-32 emits minimum 0 and
maximum 4294967295 with the signed-64 format label; unsigned-64 emits only
minimum 0 and no maximum, also labelled int64; the signed kinds emit neither
bound. -/
theorem spec_c4_schema_bounds (args : EnumArgs) (r : EnumRepr)
    (hr : resolvedRepr args = some r) :
    ((register_schema args).ty = "integer" ∧
      (register_schema args).format = some (fmt_str r)) ∧
    (r = EnumRepr.u32 →
      fmt_str r = "int64" ∧ (register_schema args).minimum = some 0 ∧
        (register_schema args).maximum = some 4294967295) ∧
    (r = EnumRepr.u64 →
      fmt_str r = "int64" ∧ (register_schema args).minimum = some 0 ∧
        (register_schema args).maximum = none) ∧
    ((r = EnumRepr.i32 ∨ r = EnumRepr.i64) →
      (register_schema args).minimum = none ∧
        (register_schema args).maximum = none) := by
  cases r <;>
    simp [register_schema, is_numeric, hr, min_setter_stmt, max_setter_stmt,
      fmt_str, MetaSchema.new]

/-- Witness for C4 at the unsigned-32 test enum. -/
theorem spec_c4_schema_bounds_witness :
    fmt_str EnumRepr.u32 = "int64" ∧ (register_schema exU32Args).minimum = some 0 ∧
      (register_schema exU32Args).maximum = some 4294967295 :=
  (spec_c4_schema_bounds exU32Args EnumRepr.u32 (by decide)).2.1 rfl

/-- C5: the canonical name is resolved by priority — explicit per-variant
rename, else the whole-enum rename rule applied to the identifier, else the
identifier unchanged — and a variant with a per-variant rename decodes only
the renamed string: decoding the original identifier fails (provided, as in
the spec's example, no variant's canonical name equals that identifier). -/
theorem spec_c5_rename_priority (args : EnumArgs) (i : Nat) (v : EnumItem) (s : String)
    (hmode : resolvedRepr args = none)
    (hv : args.variants[i]? = some v) (hrn : v.rename = some s)
    (hnames : namesDistinct args.rename_all args.variants)
    (hident : ∀ w ∈ args.variants, oai_item_name args.rename_all w ≠ v.ident) :
    (∀ ra w, oai_item_name ra w =
      (match w.rename with
       | some t => t
       | none =>
         match ra with
         | some rule => rule w.ident
         | none => w.ident)) ∧
    parse_from_json args (some (JValue.str s)) = Except.ok i ∧
    parse_from_json args (some (JValue.str v.ident)) =
      Except.error (ParseError.expectedType (JValue.str v.ident)) := by
  refine ⟨?_, ?_, ?_⟩
  · intro ra w
    cases hw : w.rename <;> cases ra <;>
      simp [oai_item_name, hw, apply_rename_rule_variant]
  · have hcanon : oai_item_name args.rename_all v = s := by
      simp [oai_item_name, hrn]
    have hfirst : ∀ j w, j < i → args.variants[j]? = some w →
        oai_item_name args.rename_all w ≠ s := by
      intro j w hj hw
      have := pairwise_ne_first (oai_item_name args.rename_all) hnames hj hv hw
      rw [hcanon] at this
      exact this
    have hmatch := item_to_ident_ok args.rename_all s args.variants 0 i v hv hcanon hfirst
    simp [parse_from_json, hmode, hmatch]
  · have h := item_to_ident_none args.rename_all v.ident args.variants hident 0
    simp [parse_from_json, hmode, h]

/-- Witness for C5 at the per-variant rename test enum (`DeleteUser` renamed
to `"delete_user"`). -/
theorem spec_c5_rename_priority_witness :
    parse_from_json exRenameArgs (some (JValue.str "delete_user")) = Except.ok 1 ∧
    parse_from_json exRenameArgs (some (JValue.str "DeleteUser")) =
      Except.error (ParseError.expectedType (JValue.str "DeleteUser")) :=
  (spec_c5_rename_priority exRenameArgs 1 ⟨"DeleteUser", some "delete_user", 1⟩
    "delete_user" (by decide) (by decide) (by decide) (by decide) (by decide)).2

/-- C6: when a structurally identical remote enum is declared, the generated
conversions are total on the shared variants, never fail, and are mutually
inverse in both directions. -/
theorem spec_c6_remote_bridge (variants : List EnumItem) (x : String)
    (hx : x ∈ variants.map EnumItem.ident) :
    local_to_remote variants x = some x ∧
    remote_to_local variants x = some x ∧
    (local_to_remote variants x).bind (remote_to_local variants) = some x ∧
    (remote_to_local variants x).bind (local_to_remote variants) = some x := by
  have h1 : local_to_remote variants x = some x := match_arms_ident variants x hx
  have h2 : remote_to_local variants x = some x := match_arms_ident variants x hx
  refine ⟨h1, h2, ?_, ?_⟩
  · rw [h1, Option.some_bind, h2]
  · rw [h2, Option.some_bind, h1]

/-- Witness for C6 at the three-variant remote-bridge test enum. -/
theorem spec_c6_remote_bridge_witness :
    local_to_remote exRemoteVariants "B" = some "B" ∧
    remote_to_local exRemoteVariants "B" = some "B" ∧
    (local_to_remote exRemoteVariants "B").bind (remote_to_local exRemoteVariants) =
      some "B" ∧
    (remote_to_local exRemoteVariants "B").bind (local_to_remote exRemoteVariants) =
      some "B" :=
  spec_c6_remote_bridge exRemoteVariants "B" (by decide)

/-- C7: encoding is total and never fails: for every declared variant,
`to_json` returns `Some` of a JSON value — a number under Integer wire mode,
a string under String mode. -/
theorem spec_c7_encode_total (args : EnumArgs) (i : Nat)
    (h : i < args.variants.length) :
    ∃ j, to_json args i = some j ∧
      (match resolvedRepr args with
       | some _ => ∃ n, j = JValue.num n
       | none => ∃ s, j = JValue.str s) := by
  obtain ⟨v, hv⟩ : ∃ v, args.variants[i]? = some v :=
    ⟨args.variants[i], List.getElem?_eq_getElem h⟩
  cases hr : resolvedRepr args with
  | some r =>
    refine ⟨JValue.num (jsonOfInt (wireCast r v.disc)), ?_, ?_⟩
    · simp [to_json, hv, hr]
    · exact ⟨_, rfl⟩
  | none =>
    refine ⟨JValue.str (oai_item_name args.rename_all v), ?_, ?_⟩
    · simp [to_json, hv, hr]
    · exact ⟨_, rfl⟩

/-- Witness for C7 at the unsigned-32 test enum, variant index 2. -/
theorem spec_c7_encode_total_witness :
    ∃ j, to_json exU32Args 2 = some j ∧
      (match resolvedRepr exU32Args with
       | some _ => ∃ n, j = JValue.num n
       | none => ∃ s, j = JValue.str s) :=
  spec_c7_encode_total exU32Args 2 (by decide)

/-- C8: parameter decode under Integer mode: a string the bounded parse
rejects yields the InvalidFormat failure (`custom "invalid integer"`); a
string that parses but matches no discriminant yields the very same no-match
failure JSON decode produces; under String mode a string that is no canonical
name yields the generic not-a-valid-enumeration-value failure. -/
theorem spec_c8_param_decode (args : EnumArgs) :
    (∀ r, resolvedRepr args = some r →
      (∀ s, parse_ty_str r s = none →
        parse_from_parameter args s =
          Except.error (ParseError.custom "invalid integer")) ∧
      (∀ s parsed, parse_ty_str r s = some parsed →
        (∀ v ∈ args.variants, wireCast r v.disc ≠ parsed) →
        parse_from_parameter args s =
          Except.error (ParseError.custom "invalid enum value") ∧
        (∀ n raw, number_getter r n = some raw → wireCast r raw = parsed →
          parse_from_json args (some (JValue.num n)) =
            parse_from_parameter args s))) ∧
    (resolvedRepr args = none →
      ∀ s, (∀ v ∈ args.variants, oai_item_name args.rename_all v ≠ s) →
        parse_from_parameter args s =
          Except.error (ParseError.custom "Expect a valid enumeration value.")) := by
  constructor
  · intro r hr
    constructor
    · intro s hs
      simp [parse_from_parameter, hr, hs]
    · intro s parsed hs hnone
      have hparam : parse_from_parameter args s =
          Except.error (ParseError.custom "invalid enum value") := by
        simp only [parse_from_parameter, hr, hs]
        exact eq_checks_num_err r parsed args.variants hnone 0
      refine ⟨hparam, ?_⟩
      intro n raw hget hcast
      rw [hparam]
      simp only [parse_from_json, Option.getD_some, hr, hget]
      rw [hcast]
      exact eq_checks_num_err r parsed args.variants hnone 0
  · intro hmode s hs
    have h := item_to_ident_none args.rename_all s args.variants hs 0
    simp [parse_from_parameter, hmode, h]

/-- Witness for C8 at the signed-32 test enum: a non-numeric parameter string
is an InvalidFormat failure. -/
theorem spec_c8_param_decode_witness :
    parse_from_parameter exI32Args "abc" =
      Except.error (ParseError.custom "invalid integer") :=
  ((spec_c8_param_decode exI32Args).1 EnumRepr.i32 (by decide)).1 "abc" (by decide)

/-- C9: multipart-field decode returns the MissingInput failure whenever the
field is absent, and a present field's text payload is decoded exactly as
parameter decode would decode it. -/
theorem spec_c9_multipart_delegation (args : EnumArgs) :
    parse_from_multipart args none = Except.error ParseError.expectedInput ∧
    ∀ s, parse_from_multipart args (some s) = parse_from_parameter args s :=
  ⟨rfl, fun _ => rfl⟩

/-- C10: under a 32-bit Integer mode, JSON decode narrows the accessor value
with a wrapping modulo-2^32 cast, so every JSON number whose extracted value
is congruent to a variant's discriminant modulo 2^32 decodes to that variant,
even outside the wire type's range; parameter decode does not share this
behaviour: it rejects every out-of-range decimal string with the
InvalidFormat failure. -/
theorem spec_c10_wrapping_narrow (args : EnumArgs) (r : EnumRepr)
    (hr : resolvedRepr args = some r) (h32 : r = EnumRepr.i32 ∨ r = EnumRepr.u32)
    (i : Nat) (v : EnumItem) (hv : args.variants[i]? = some v)
    (hd : discsDistinct r args.variants) :
    (∀ n raw, number_getter r n = some raw → raw % 2 ^ 32 = v.disc % 2 ^ 32 →
        parse_from_json args (some (JValue.num n)) = Except.ok i) ∧
    (∀ w : Int, w < wireLo r ∨ wireHi r < w →
        parse_from_parameter args (intDecimal w) =
          Except.error (ParseError.custom "invalid integer")) := by
  constructor
  · intro n raw hget hcong
    have hcast : wireCast r raw = wireCast r v.disc :=
      wireCast32_congr r h32 hcong
    simp only [parse_from_json, Option.getD_some, hr, hget]
    have hscan := eq_checks_num_ok r (wireCast r raw) args.variants 0 i v hv hcast.symm
      (fun j w hj hw => by
        rw [hcast]
        exact pairwise_ne_first (fun a => wireCast r a.disc) hd hj hv hw)
    simpa using hscan
  · intro w hw
    simp only [parse_from_parameter, hr]
    rw [parse_ty_str_intDecimal, if_neg (by intro hc; rcases hw with h | h <;> omega)]

/-- Witness for C10 at the signed-32 test enum: the JSON number 2^32 + 1
decodes to the variant with discriminant 1, while the parameter string
"4294967297" is rejected. -/
theorem spec_c10_wrapping_narrow_witness :
    parse_from_json exI32Args (some (JValue.num (JNumber.posInt 4294967297))) =
      Except.ok 1 ∧
    parse_from_parameter exI32Args (intDecimal 4294967297) =
      Except.error (ParseError.custom "invalid integer") := by
  have h := spec_c10_wrapping_narrow exI32Args EnumRepr.i32 (by decide) (Or.inl rfl)
    1 ⟨"One", none, 1⟩ (by decide) (by decide)
  exact ⟨h.1 (JNumber.posInt 4294967297) 4294967297 (by decide) (by decide),
    h.2 4294967297 (by decide)⟩

end PoemEnum
